import Mathlib

/-!
Verification development for the site-enrichment service (src/main.py).

The Python source works on strings with `re`; here the core is embedded
over `List Char` (a `String` is unpacked with `.data`), and each regular
expression of the source is embedded as an explicit matcher function.
Every matcher's doc comment cites the regex it embeds.  Python `re`
semantics that matter here and are reproduced exactly:

* `re.sub(pat, "", t)` removes the leftmost match, then continues
  scanning at the first character after the match (non-overlapping);
* alternation prefers the leftmost starting position, and at equal
  positions the earlier alternative;
* greedy quantifiers take the longest amount first and backtrack only
  when the remainder of the pattern cannot match (the only pattern here
  that genuinely needs backtracking is the `1?` of the phone prefix;
  for every other quantifier the following pattern element cannot
  consume a character of the quantifier's class, so maximal munch is
  exact);
* `\b` is a word/non-word transition, where `\w` is alphanumeric or
  underscore (ASCII scope is used throughout, which covers the
  source's pattern vocabulary).
-/

set_option maxRecDepth 20000

/-- Python `\s` (ASCII scope): the whitespace class used by `re.sub(r"\s+", ...)`,
`str.strip()` and the sentence splitter. -/
def pyIsSpace (c : Char) : Bool :=
  c == ' ' || c == '\t' || c == '\n' || c == '\r' || c == '\x0b' || c == '\x0c'

/-- Python `\w` (ASCII scope): letters, digits, underscore. -/
def isWordChar (c : Char) : Bool :=
  c.isAlphanum || c == '_'

/-- The separator class of `re.sub(r"[\|\•]+", " ", t)`: pipe or bullet. -/
def isPipeChar (c : Char) : Bool :=
  c == '|' || c == '•'

/-- The separator class `[\s\-\.]` of the phone regex. -/
def isPhoneSep (c : Char) : Bool :=
  pyIsSpace c || c == '-' || c == '.'

/-- ASCII uppercase counterpart of a lowercase letter; other characters unchanged. -/
def upperOf (c : Char) : Char :=
  if c.isLower then Char.ofNat (c.toNat - 32) else c

/-- Case-insensitive comparison of an input character `c` against a
lowercase pattern character `p` (models `re.IGNORECASE`, ASCII scope). -/
def ciChar (p c : Char) : Bool :=
  c == p || c == upperOf p

/-- `true` when the option holds a word character (`\b` bookkeeping:
`none` stands for start or end of the string). -/
def optWord : Option Char → Bool
  | none => false
  | some c => isWordChar c

/-- `\b` before a position whose first matched character is a word
character: the preceding character must be absent or non-word. -/
def bndBefore : Option Char → Bool
  | none => true
  | some c => !isWordChar c

/-- `\b` after a match whose last character is a word character: the next
character must be absent or non-word. -/
def noWordAhead : List Char → Bool
  | [] => true
  | c :: _ => !isWordChar c

/-- A matcher step: consumes a prefix of the character list, returning the
number of characters consumed and the remainder. -/
abbrev MStep := List Char → Option (Nat × List Char)

/-- Case-insensitive literal (a sequence of lowercase pattern characters,
spaces and symbols compared verbatim). -/
def mLit : List Char → MStep
  | [], cs => some (0, cs)
  | _ :: _, [] => none
  | p :: ps, c :: cs =>
    if ciChar p c then (mLit ps cs).map (fun pr => (pr.1 + 1, pr.2)) else none

/-- Optional single character of a class (`X?` for a character class `X`):
greedy, and exact because in every use the following pattern element
cannot match a character of the class. -/
def mClsOpt (p : Char → Bool) : MStep
  | [] => some (0, [])
  | c :: cs => if p c then some (1, cs) else some (0, c :: cs)

/-- `X*` for a character class `X`: maximal munch (exact in every use here
because the next pattern element cannot match a character of the class). -/
def mClsStar (p : Char → Bool) : MStep := fun cs =>
  let k := (cs.takeWhile p).length
  some (k, cs.drop k)

/-- `X+` for a character class `X`: maximal munch, at least one character. -/
def mClsPlus (p : Char → Bool) : MStep := fun cs =>
  let k := (cs.takeWhile p).length
  if k == 0 then none else some (k, cs.drop k)

/-- `X{n}` for a character class `X`: exactly `n` characters of the class. -/
def mClsRep (p : Char → Bool) (n : Nat) : MStep := fun cs =>
  if (cs.take n).length == n && (cs.take n).all p then some (n, cs.drop n) else none

/-- A position matcher: given the character preceding the position (for
`\b`) and the characters from the position on, returns the length of the
match starting there, if any. -/
abbrev PMatch := Option Char → List Char → Option Nat

/-- Helper for the URL regex: the trailing `\S+` — at least one
non-whitespace character, maximal munch; adds the accumulated length. -/
def tailNonSpace (acc : Nat) (cs : List Char) : Option Nat :=
  let k := (cs.takeWhile (fun c => !pyIsSpace c)).length
  if k == 0 then none else some (acc + k)

/-- `URL_REGEX = (https?://\S+|www\.\S+)` with `re.IGNORECASE`
(src/main.py line 30).  The two alternatives start with distinct letters,
so alternative order never matters at one position; `s?` is resolved by
checking the `s://` continuation before `://`. -/
def urlMatchLen (_ : Option Char) (cs : List Char) : Option Nat :=
  match mLit (("http").toList) cs with
  | some (n1, r1) =>
    (match mLit (("s://").toList) r1 with
     | some (n2, r2) => tailNonSpace (n1 + n2) r2
     | none =>
       match mLit (("://").toList) r1 with
       | some (n2, r2) => tailNonSpace (n1 + n2) r2
       | none => none)
  | none =>
    match mLit (("www.").toList) cs with
    | some (n1, r1) => tailNonSpace n1 r1
    | none => none

/-- The mandatory part of the phone regex (src/main.py line 29):
`\(?\d{3}\)?[\s\-\.]?\d{3}[\s\-\.]?\d{4}`.  Every optional element is
followed by a pattern element that cannot match a character of its class,
so each is take-if-present without backtracking. -/
def phoneCore (cs : List Char) : Option Nat :=
  match mClsOpt (fun c => c == '(') cs with
  | none => none
  | some (a, r1) =>
    match mClsRep (fun c => c.isDigit) 3 r1 with
    | none => none
    | some (b, r2) =>
      match mClsOpt (fun c => c == ')') r2 with
      | none => none
      | some (c3, r3) =>
        match mClsOpt isPhoneSep r3 with
        | none => none
        | some (d, r4) =>
          match mClsRep (fun c => c.isDigit) 3 r4 with
          | none => none
          | some (e, r5) =>
            match mClsOpt isPhoneSep r5 with
            | none => none
            | some (f, r6) =>
              match mClsRep (fun c => c.isDigit) 4 r6 with
              | none => none
              | some (g, _) => some (a + b + c3 + d + e + f + g)

/-- `PHONE_REGEX = (\+?1?\s*)?(\(?\d{3}\)?[\s\-\.]?\d{3}[\s\-\.]?\d{4})`
(src/main.py line 29).  The optional prefix group: `\+?` is
take-if-present (if the continuation fails with `+` consumed it also
fails without, since `+` matches neither `\(?` nor `\d`); `1?` genuinely
backtracks: with the `1` consumed first, and on failure with the `1`
left as the first core digit; `\s*` is maximal munch. -/
def phoneMatchLen (_ : Option Char) (cs : List Char) : Option Nat :=
  let pr := match cs with
    | c :: cs' => if c == '+' then (1, cs') else (0, c :: cs')
    | [] => (0, ([] : List Char))
  let p := pr.1
  let r0 := pr.2
  match r0 with
  | '1' :: r1 =>
    let k := (r1.takeWhile pyIsSpace).length
    (match phoneCore (r1.drop k) with
     | some n => some (p + 1 + k + n)
     | none => (phoneCore (('1') :: r1)).map (fun n => p + n))
  | _ =>
    let k := (r0.takeWhile pyIsSpace).length
    (phoneCore (r0.drop k)).map (fun n => p + k + n)

/-- One CTA pattern `\bWORD\b` with `re.IGNORECASE` (the words of
`CTA_PATTERNS`, src/main.py lines 23-28; phrases keep their literal
single spaces).  Every CTA word starts and ends with a letter, so the
boundaries reduce to: previous character absent or non-word, next
character absent or non-word. -/
def ctaMatchLen (w : List Char) (prev : Option Char) (cs : List Char) : Option Nat :=
  match mLit w cs with
  | some (n, rest) => if bndBefore prev && noWordAhead rest then some n else none
  | none => none

/-- `re.search`: try the matcher at each position from left to right,
threading the previous character for `\b`; returns the matched
characters of the leftmost match. -/
def searchB (m : PMatch) : Option Char → List Char → Option (List Char)
  | prev, [] =>
    (match m prev [] with
     | some _ => some []
     | none => none)
  | prev, c :: rest =>
    match m prev (c :: rest) with
    | some n => some ((c :: rest).take n)
    | none => searchB m (some c) rest

/-- `re.sub(pat, "", t)`: remove every non-overlapping match, scanning
from the left and continuing right after each match.  `fuel` bounds the
number of positions processed; the wrapper `subB` supplies `cs.length`,
which suffices because every matcher used here consumes at least one
character per match (the `some 0` case is dead code folded into the
no-match case). -/
def subAllB (m : PMatch) : Nat → Option Char → List Char → List Char
  | 0, _, cs => cs
  | _ + 1, _, [] => []
  | fuel + 1, prev, c :: rest =>
    match m prev (c :: rest) with
    | some (n + 1) =>
      subAllB m fuel (((c :: rest).take (n + 1)).getLast?) ((c :: rest).drop (n + 1))
    | _ => c :: subAllB m fuel (some c) rest

/-- Substitution by deletion over a whole list (see `subAllB`). -/
def subB (m : PMatch) (cs : List Char) : List Char :=
  subAllB m cs.length none cs

/-- `re.sub(r"\s+", " ", t)` (src/main.py line 109): each maximal
whitespace run becomes a single space. -/
def wsCollapse : List Char → List Char
  | [] => []
  | c :: cs =>
    if pyIsSpace c then
      match cs with
      | c2 :: _ => if pyIsSpace c2 then wsCollapse cs else ' ' :: wsCollapse cs
      | [] => [' ']
    else c :: wsCollapse cs

/-- `re.sub(r"[\|\•]+", " ", t)` (src/main.py line 110): each maximal
pipe/bullet run becomes a single space. -/
def pipeCollapse : List Char → List Char
  | [] => []
  | c :: cs =>
    if isPipeChar c then
      match cs with
      | c2 :: _ => if isPipeChar c2 then pipeCollapse cs else ' ' :: pipeCollapse cs
      | [] => [' ']
    else c :: pipeCollapse cs

/-- Python `str.rstrip()`: drop trailing whitespace. -/
def rstripL : List Char → List Char
  | [] => []
  | c :: cs =>
    match rstripL cs with
    | [] => if pyIsSpace c then [] else [c]
    | r => c :: r

/-- Python `str.strip()`: drop leading and trailing whitespace. -/
def pyStrip (cs : List Char) : List Char :=
  rstripL (cs.dropWhile pyIsSpace)

/-- `clean_str` (src/main.py lines 57-58) on an actual string:
`str(x).strip()`. -/
def clean_strL (cs : List Char) : List Char :=
  pyStrip cs

/-- The words of `CTA_PATTERNS` (src/main.py lines 23-28), each standing
for the pattern `\bWORD\b`, in source order. -/
def CTA_WORDS : List (List Char) :=
  [("call").toList, ("text").toList, ("email").toList, ("message").toList,
   ("contact").toList, ("book").toList, ("schedule").toList, ("appointment").toList,
   ("get a quote").toList, ("get quote").toList, ("request").toList, ("click").toList,
   ("tap").toList, ("visit").toList, ("order").toList, ("buy").toList,
   ("apply now").toList, ("chat").toList, ("inquire").toList, ("quote").toList]

/-- `strip_contact_and_cta` (src/main.py lines 101-111) over characters:
clean, remove URL matches, remove phone matches, remove each CTA pattern
in order, collapse whitespace and trim, collapse pipe/bullet separators
and trim. -/
def sanitizeCore (cs : List Char) : List Char :=
  let t0 := clean_strL cs
  if t0.isEmpty then [] else
  let t1 := subB urlMatchLen t0
  let t2 := subB phoneMatchLen t1
  let t3 := CTA_WORDS.foldl (fun t w => subB (ctaMatchLen w) t) t2
  let t4 := pyStrip (wsCollapse t3)
  pyStrip (pipeCollapse t4)

/-- `strip_contact_and_cta` on strings. -/
def strip_contact_and_cta (s : String) : String :=
  ⟨sanitizeCore s.data⟩

/-- `\b` at a position: word/non-word transition between the previous
character and the first character of the remainder. -/
def bndAt (prev : Option Char) (cs : List Char) : Bool :=
  optWord prev != optWord cs.head?

/-- Ordered alternation of case-insensitive literals
(`(?:A|B)`): the first alternative that matches wins.  Exact for the
alternations used here, whose alternatives diverge within their common
prefix, so a later continuation failure never switches alternatives. -/
def mAltLit : List (List Char) → MStep
  | [], _ => none
  | p :: ps, cs =>
    match mLit p cs with
    | some r => some r
    | none => mAltLit ps cs

/-- Offer pattern 1, `(\b\d{1,2}%\s*off\b)` (src/main.py line 118).
`\d{1,2}` tries two digits, then backtracks to one. -/
def offer1 (prev : Option Char) (cs : List Char) : Option Nat :=
  if bndBefore prev then
    (do
      let (a, r1) ← mClsRep (fun c => c.isDigit) 2 cs
      offer1Tail a r1) <|>
    (do
      let (a, r1) ← mClsRep (fun c => c.isDigit) 1 cs
      offer1Tail a r1)
  else none
where
  /-- `%\s*off\b` after the digits. -/
  offer1Tail (a : Nat) (r1 : List Char) : Option Nat := do
    let (b, r2) ← mLit (("%").toList) r1
    let (c, r3) ← mClsStar pyIsSpace r2
    let (d, r4) ← mLit (("off").toList) r3
    if noWordAhead r4 then pure (a + b + c + d) else none

/-- Offer pattern 2, `(\b\$?\s*\d+\s*(?:off|discount)\b)` (line 119).
The `\b` sits before the optional `$`, so it is a plain word/non-word
transition at the start position. -/
def offer2 (prev : Option Char) (cs : List Char) : Option Nat :=
  if bndAt prev cs then do
    let (a, r1) ← mClsOpt (fun c => c == '$') cs
    let (b, r2) ← mClsStar pyIsSpace r1
    let (c, r3) ← mClsPlus (fun ch => ch.isDigit) r2
    let (d, r4) ← mClsStar pyIsSpace r3
    let (e, r5) ← mAltLit [("off").toList, ("discount").toList] r4
    if noWordAhead r5 then pure (a + b + c + d + e) else none
  else none

/-- Offer pattern 3, `(\bfree\s+\w+(?:\s+\w+)?\b)` (line 120).  The
optional second word is taken greedily; the final `\b` always holds
after a maximal `\w+`, so taking it never needs to be undone. -/
def offer3 (prev : Option Char) (cs : List Char) : Option Nat :=
  if bndBefore prev then do
    let (a, r1) ← mLit (("free").toList) cs
    let (b, r2) ← mClsPlus pyIsSpace r1
    let (c, r3) ← mClsPlus isWordChar r2
    let pr :=
      match (do
        let (d, r4) ← mClsPlus pyIsSpace r3
        let (e, r5) ← mClsPlus isWordChar r4
        pure (d + e, r5) : Option (Nat × List Char)) with
      | some q => q
      | none => (0, r3)
    if noWordAhead pr.2 then pure (a + b + c + pr.1) else none
  else none

/-- Offer pattern 4, `(\b0%\s*(?:apr|interest)\b)` (line 121). -/
def offer4 (prev : Option Char) (cs : List Char) : Option Nat :=
  if bndBefore prev then do
    let (a, r1) ← mLit (("0%").toList) cs
    let (b, r2) ← mClsStar pyIsSpace r1
    let (c, r3) ← mAltLit [("apr").toList, ("interest").toList] r2
    if noWordAhead r3 then pure (a + b + c) else none
  else none

/-- Offer pattern 5, `(\bfinancing\s+available\b)` (line 122). -/
def offer5 (prev : Option Char) (cs : List Char) : Option Nat :=
  if bndBefore prev then do
    let (a, r1) ← mLit (("financing").toList) cs
    let (b, r2) ← mClsPlus pyIsSpace r1
    let (c, r3) ← mLit (("available").toList) r2
    if noWordAhead r3 then pure (a + b + c) else none
  else none

/-- Offer pattern 6, `(\bno\s+money\s+down\b)` (line 123). -/
def offer6 (prev : Option Char) (cs : List Char) : Option Nat :=
  if bndBefore prev then do
    let (a, r1) ← mLit (("no").toList) cs
    let (b, r2) ← mClsPlus pyIsSpace r1
    let (c, r3) ← mLit (("money").toList) r2
    let (d, r4) ← mClsPlus pyIsSpace r3
    let (e, r5) ← mLit (("down").toList) r4
    if noWordAhead r5 then pure (a + b + c + d + e) else none
  else none

/-- Offer pattern 7, `(\blifetime\s+warranty\b)` (line 124). -/
def offer7 (prev : Option Char) (cs : List Char) : Option Nat :=
  if bndBefore prev then do
    let (a, r1) ← mLit (("lifetime").toList) cs
    let (b, r2) ← mClsPlus pyIsSpace r1
    let (c, r3) ← mLit (("warranty").toList) r2
    if noWordAhead r3 then pure (a + b + c) else none
  else none

/-- Offer pattern 8, `(\b\d+\s*(?:year|yr)\s*warranty\b)` (line 125). -/
def offer8 (prev : Option Char) (cs : List Char) : Option Nat :=
  if bndBefore prev then do
    let (a, r1) ← mClsPlus (fun c => c.isDigit) cs
    let (b, r2) ← mClsStar pyIsSpace r1
    let (c, r3) ← mAltLit [("year").toList, ("yr").toList] r2
    let (d, r4) ← mClsStar pyIsSpace r3
    let (e, r5) ← mLit (("warranty").toList) r4
    if noWordAhead r5 then pure (a + b + c + d + e) else none
  else none

/-- Offer pattern 9, `(\bsame[-\s]*day\s+service\b)` (line 126). -/
def offer9 (prev : Option Char) (cs : List Char) : Option Nat :=
  if bndBefore prev then do
    let (a, r1) ← mLit (("same").toList) cs
    let (b, r2) ← mClsStar (fun c => c == '-' || pyIsSpace c) r1
    let (c, r3) ← mLit (("day").toList) r2
    let (d, r4) ← mClsPlus pyIsSpace r3
    let (e, r5) ← mLit (("service").toList) r4
    if noWordAhead r5 then pure (a + b + c + d + e) else none
  else none

/-- Offer pattern 10, `(\bprice\s*match\b)` (line 127). -/
def offer10 (prev : Option Char) (cs : List Char) : Option Nat :=
  if bndBefore prev then do
    let (a, r1) ← mLit (("price").toList) cs
    let (b, r2) ← mClsStar pyIsSpace r1
    let (c, r3) ← mLit (("match").toList) r2
    if noWordAhead r3 then pure (a + b + c) else none
  else none

/-- Offer pattern 11, `(\bseasonal\s+special\b)` (line 128). -/
def offer11 (prev : Option Char) (cs : List Char) : Option Nat :=
  if bndBefore prev then do
    let (a, r1) ← mLit (("seasonal").toList) cs
    let (b, r2) ← mClsPlus pyIsSpace r1
    let (c, r3) ← mLit (("special").toList) r2
    if noWordAhead r3 then pure (a + b + c) else none
  else none

/-- The eleven offer-shape searchers of `compress_to_offer`
(src/main.py lines 117-129), in source order; each one is
`re.search(p, t, re.IGNORECASE)` returning the matched substring
(group 1 is the whole pattern). -/
def offerSearchers : List (List Char → Option (List Char)) :=
  [fun t => searchB offer1 none t, fun t => searchB offer2 none t,
   fun t => searchB offer3 none t, fun t => searchB offer4 none t,
   fun t => searchB offer5 none t, fun t => searchB offer6 none t,
   fun t => searchB offer7 none t, fun t => searchB offer8 none t,
   fun t => searchB offer9 none t, fun t => searchB offer10 none t,
   fun t => searchB offer11 none t]

/-- The pattern loop of `compress_to_offer` (src/main.py lines 130-133):
each pattern is searched against the current text and, on a match, the
current text is replaced by the matched substring; there is no break, so
later patterns run against the replaced text. -/
def offerPhase (t : List Char) : List Char :=
  offerSearchers.foldl (fun t f => (f t).getD t) t

/-- `MAX_OFFER_LEN` (src/main.py line 21). -/
def MAX_OFFER_LEN : Nat := 30

/-- `re.sub(r"\s+\S*$", "", t)` (src/main.py line 138): the leftmost (and
only possible) match is the final maximal whitespace run together with
the trailing non-whitespace token; when the text has no whitespace there
is no match.  (`$` is plain end-of-string here: the input was just
`rstrip`-ped, so it cannot end in a newline.) -/
def dropLastTok (cs : List Char) : List Char :=
  if cs.any pyIsSpace then
    (((cs.reverse).dropWhile (fun c => !pyIsSpace c)).dropWhile pyIsSpace).reverse
  else cs

/-- The state of `compress_to_offer`'s local `t` after the pattern loop
and `re.sub(r"\s+", " ", t).strip()` (src/main.py lines 130-135). -/
def compressMid (cs : List Char) : List Char :=
  pyStrip (wsCollapse (offerPhase (sanitizeCore cs)))

/-- The state of `compress_to_offer`'s local `t` after the truncation
block (src/main.py lines 136-140): when longer than `MAX_OFFER_LEN`,
cut to `MAX_OFFER_LEN`, strip trailing whitespace, drop the final
(possibly cut) word, and when that leaves nothing fall back to the
sanitized original hard-cut to `MAX_OFFER_LEN`. -/
def compressTrunc (cs : List Char) : List Char :=
  if MAX_OFFER_LEN < (compressMid cs).length then
    (if (pyStrip (dropLastTok (rstripL ((compressMid cs).take MAX_OFFER_LEN)))).isEmpty
     then pyStrip ((sanitizeCore cs).take MAX_OFFER_LEN)
     else pyStrip (dropLastTok (rstripL ((compressMid cs).take MAX_OFFER_LEN))))
  else compressMid cs

/-- `compress_to_offer` (src/main.py lines 113-144) over characters:
sanitize (returning empty on an empty sanitization), run the
offer-pattern loop and the collapse/truncation stages (`compressMid`,
`compressTrunc`), and return empty if a URL-like or phone-like
substring is still present (lines 142-143). -/
def compressCore (cs : List Char) : List Char :=
  if (sanitizeCore cs).isEmpty then [] else
  if (searchB urlMatchLen none (compressTrunc cs)).isSome ||
     (searchB phoneMatchLen none (compressTrunc cs)).isSome then []
  else compressTrunc cs

/-- `compress_to_offer` on strings. -/
def compress_to_offer (s : String) : String :=
  ⟨compressCore s.data⟩

/-- The lookbehind class of the sentence splitter: `.`, `!` or `?`. -/
def isEndPunct (o : Option Char) : Bool :=
  o == some '.' || o == some '!' || o == some '?'

/-- `re.split(r"(?<=[.!?])\s+", text)` (src/main.py line 149): cut at
every maximal whitespace run whose preceding character is `.`, `!` or
`?`; the run is consumed, everything else is kept verbatim.  `acc`
holds the current piece in reverse, so the lookbehind is its head.
`fuel` bounds the scan; the wrapper supplies the input length, which
suffices because every step consumes at least one character. -/
def splitGo : Nat → List Char → List Char → List (List Char)
  | _, acc, [] => [acc.reverse]
  | 0, acc, cs => [acc.reverse ++ cs]
  | fuel + 1, acc, c :: rest =>
    if pyIsSpace c && isEndPunct acc.head? then
      acc.reverse :: splitGo fuel [] (rest.dropWhile pyIsSpace)
    else splitGo fuel (c :: acc) rest

/-- Sentence splitting (see `splitGo`). -/
def splitSentences (cs : List Char) : List (List Char) :=
  splitGo cs.length [] cs

/-- The entries one matched sentence contributes in `find_sentences`
(src/main.py lines 157-159): the sanitized sentence truncated to 240
characters, or nothing when sanitization leaves the empty string. -/
def fsEntry (s : List Char) : List (List Char) :=
  if (sanitizeCore s).isEmpty then [] else [(sanitizeCore s).take 240]

/-- The loop of `find_sentences` (src/main.py lines 152-161): strip the
sentence, skip it when shorter than 18 characters (skipping also the
cap check, as `continue` does), otherwise test the patterns — abstracted
as the predicate `pred`, which models `any(r.search(s) for r in rx)` for
an arbitrary pattern list — append the sanitized entry on a hit
(`fsEntry`), and stop once `maxItems` entries exist. -/
def goFS (pred : List Char → Bool) (maxItems : Nat) :
    List (List Char) → List (List Char) → List (List Char)
  | [], hits => hits
  | s :: rest, hits =>
    let s := pyStrip s
    if s.length < 18 then goFS pred maxItems rest hits
    else
      let hits := hits ++ (if pred s then fsEntry s else [])
      if maxItems ≤ hits.length then hits else goFS pred maxItems rest hits

/-- `find_sentences` (src/main.py lines 146-162) over characters. -/
def find_sentencesCore (text : List Char) (pred : List Char → Bool) (maxItems : Nat) :
    List (List Char) :=
  if text.isEmpty then [] else goFS pred maxItems (splitSentences text) []

/-- `find_sentences` on strings. -/
def find_sentences (text : String) (pred : String → Bool) (maxItems : Nat) : List String :=
  (find_sentencesCore text.data (fun cs => pred ⟨cs⟩) maxItems).map (fun cs => ⟨cs⟩)

/-- `normalize_phone` (src/main.py lines 60-66) over characters:
`re.sub(r"\D+", "", clean_str(phone))` keeps exactly the digits; then
the 10/11-digit prefixing rules. -/
def normalize_phoneCore (cs : List Char) : List Char :=
  let digits := (clean_strL cs).filter (fun c => c.isDigit)
  if digits.length == 10 then '+' :: '1' :: digits
  else if digits.length == 11 && digits.head? == some '1' then '+' :: digits
  else digits

/-- `normalize_phone` on strings. -/
def normalize_phone (s : String) : String :=
  ⟨normalize_phoneCore s.data⟩

/-- Case-sensitive literal prefix test over characters (used for
`url.startswith(("http://", "https://"))`). -/
def litPref : List Char → List Char → Bool
  | [], _ => true
  | _ :: _, [] => false
  | p :: ps, c :: cs => p == c && litPref ps cs

/-- `normalize_url` (src/main.py lines 68-74). -/
def normalize_url (s : String) : String :=
  let url : String := ⟨clean_strL s.data⟩
  if url = ("") then ("")
  else if litPref (("http://").toList) url.data || litPref (("https://").toList) url.data then
    url
  else ("https://") ++ url

/-- `"url or phone still present"`: the guard of `compress_to_offer`
(src/main.py line 142) and the searched form of the no-leak claims. -/
def urlFoundB (cs : List Char) : Bool :=
  (searchB urlMatchLen none cs).isSome

/-- Phone counterpart of `urlFoundB`. -/
def phoneFoundB (cs : List Char) : Bool :=
  (searchB phoneMatchLen none cs).isSome

/-- `true` when the list has two adjacent whitespace characters. -/
def hasDoubleWS : List Char → Bool
  | a :: b :: r => (pyIsSpace a && pyIsSpace b) || hasDoubleWS (b :: r)
  | _ => false

/-- Applying the first matching searcher only — this follows the words of
the first-match-wins claim about `compress_to_offer` (not the source,
whose loop lacks a break); used to compare the claimed behavior with the
actual one. -/
def firstMatchOnly : List (List Char → Option (List Char)) → List Char → List Char
  | [], t => t
  | f :: fs, t =>
    match f t with
    | some m => m
    | none => firstMatchOnly fs t

/-- `compress_to_offer` as the first-match-wins claim describes it: the
pattern loop is replaced by `firstMatchOnly`; everything else (sanitize,
collapse, truncation, final guard) is as in the source. -/
def specFirstMatchCompress (s : String) : String :=
  let cs := s.data
  let t := sanitizeCore cs
  if t.isEmpty then ("") else
  let t := firstMatchOnly offerSearchers t
  let t := pyStrip (wsCollapse t)
  let t :=
    if MAX_OFFER_LEN < t.length then
      let t1 := rstripL (t.take MAX_OFFER_LEN)
      let t2 := pyStrip (dropLastTok t1)
      if t2.isEmpty then pyStrip ((sanitizeCore cs).take MAX_OFFER_LEN) else t2
    else t
  if (searchB urlMatchLen none t).isSome || (searchB phoneMatchLen none t).isSome then ("")
  else (⟨t⟩ : String)

/-- A value stored in the result dictionary of `scrape_site_bundle`. -/
inductive Val where
  | s (v : String)
  | list (v : List String)
  | b (v : Bool)
deriving DecidableEq, Repr

/-- What the crawler reads off one fetched page: the HTTP status and the
pure functions of the body that the source applies
(`get_meta(soup, name="description")`, `get_meta(soup, prop="og:description")`,
`soup.title.get_text()` with `""` for a missing or empty title tag, and
`extract_visible_text(html)`). -/
structure PageResp where
  status : Nat
  metaDesc : String
  ogDesc : String
  title : String
  visText : String

/-- Outcome of `http_get` plus parsing for one URL: an exception anywhere
in the per-page `try` block, or a response. -/
inductive PageResult where
  | exn
  | resp (r : PageResp)

/-- The mutable locals of the crawl loop of `scrape_site_bundle`
(src/main.py lines 169-173), plus a ghost counter of issued fetch
attempts. -/
structure CrawlSt where
  texts : List String
  metaDescription : String
  ogDescription : String
  title : String
  pagesChecked : List String
  attempts : Nat

/-- `MAX_SITE_PAGES` (src/main.py line 20). -/
def MAX_SITE_PAGES : Nat := 4

/-- `CANDIDATE_PATHS` (src/main.py line 32). -/
def CANDIDATE_PATHS : List String :=
  [(""), ("specials"), ("offers"), ("deals"), ("coupons"), ("promotions"),
   ("financing"), ("warranty"), ("about"), ("services"), ("service"), ("contact")]

/-- `urljoin(website.rstrip("/") + "/", path)` (src/main.py line 179) for
the plain relative segments of `CANDIDATE_PATHS`: strip trailing slashes
from the base and append `"/" + path`. -/
def site_url (website path : String) : String :=
  (⟨(website.data.reverse.dropWhile (fun c => c == '/')).reverse⟩ : String) ++ ("/") ++ path

/-- One iteration of the crawl loop (src/main.py lines 175-200): stop
once `MAX_SITE_PAGES` pages are collected; otherwise fetch the candidate
URL (counted as an attempt), skip on exception or status `>= 400`,
capture first-found metadata, and collect the page when its visible text
has at least 200 characters. -/
def crawlStep (page : String → PageResult) (website : String) (st : CrawlSt) (path : String) :
    CrawlSt :=
  if MAX_SITE_PAGES ≤ st.pagesChecked.length then st
  else
    let url := site_url website path
    match page url with
    | .exn => { st with attempts := st.attempts + 1 }
    | .resp r =>
      if 400 ≤ r.status then { st with attempts := st.attempts + 1 }
      else
        let metaD := if st.metaDescription = ("") then r.metaDesc else st.metaDescription
        let ogD := if st.ogDescription = ("") then r.ogDesc else st.ogDescription
        let title :=
          if st.title = ("") && r.title != ("") then
            (⟨(pyStrip r.title.data).take 120⟩ : String)
          else st.title
        if r.visText.length < 200 then
          { texts := st.texts, metaDescription := metaD, ogDescription := ogD,
            title := title, pagesChecked := st.pagesChecked, attempts := st.attempts + 1 }
        else
          { texts := st.texts ++ [r.visText], metaDescription := metaD, ogDescription := ogD,
            title := title, pagesChecked := st.pagesChecked ++ [url],
            attempts := st.attempts + 1 }

/-- The per-category sentence predicates: each models
`any(r.search(s) for r in rx)` for the corresponding compiled pattern
list (`OFFER_PATTERNS`, `FINANCING_PATTERNS`, `WARRANTY_PATTERNS`,
`SPANISH_PATTERNS`, `INSURED_PATTERNS`, `BONDED_PATTERNS`,
`VIRTUAL_PATTERNS`), kept abstract: the bundle-level claims hold for
every choice of patterns. -/
structure SitePreds where
  offerP : List Char → Bool
  financingP : List Char → Bool
  warrantyP : List Char → Bool
  spanishP : List Char → Bool
  insuredP : List Char → Bool
  bondedP : List Char → Bool
  virtualP : List Char → Bool

/-- The offer/highlight selection loops (src/main.py lines 215-229):
compress each raw hit, keep it when non-empty and not already present,
and stop once three are accepted (the check runs after every
iteration). -/
def pickCompressed : List (List Char) → List (List Char) → List (List Char)
  | [], acc => acc
  | s :: rest, acc =>
    let o := compressCore s
    let acc := if o.isEmpty || acc.contains o then acc else acc ++ [o]
    if 3 ≤ acc.length then acc else pickCompressed rest acc

/-- `"; ".join([strip_contact_and_cta(x) for x in raw[:2] if strip_contact_and_cta(x)])[:500]`
(src/main.py lines 234-235). -/
def joinSanitized (raw : List (List Char)) : List Char :=
  (List.intercalate (("; ").toList) (((raw.take 2).map sanitizeCore).filter
    (fun x => !x.isEmpty))).take 500

/-- `scrape_site_bundle` (src/main.py lines 164-252), over an abstract
page oracle and abstract category predicates.  Returns the result
dictionary as an ordered key/value list — faithful to the three literal
dicts of the source — paired with the ghost count of fetch attempts. -/
def scrape_site_bundle (page : String → PageResult) (preds : SitePreds) (website : String) :
    List (String × Val) × Nat :=
  let website := normalize_url website
  if website = ("") then ([(("status"), Val.s ("missing"))], 0)
  else
    let st := CANDIDATE_PATHS.foldl (crawlStep page website) ⟨[], (""), (""), (""), [], 0⟩
    if st.texts.isEmpty then ([(("status"), Val.s ("unreachable"))], st.attempts)
    else
      let combined := (String.intercalate (" ") st.texts).data
      let offers_raw := find_sentencesCore combined preds.offerP 10
      let financing_raw := find_sentencesCore combined preds.financingP 5
      let warranty_raw := find_sentencesCore combined preds.warrantyP 3
      let spanish := find_sentencesCore combined preds.spanishP 1
      let insured := find_sentencesCore combined preds.insuredP 1
      let bonded := find_sentencesCore combined preds.bondedP 1
      let virtual := find_sentencesCore combined preds.virtualP 1
      let offers := pickCompressed offers_raw []
      let highlights :=
        pickCompressed (offers_raw.take 3 ++ financing_raw.take 2 ++ warranty_raw.take 2) []
      let tagline0 :=
        if st.title != ("") then sanitizeCore st.title.data
        else sanitizeCore
          (if st.metaDescription != ("") then st.metaDescription else st.ogDescription).data
      let tagline := if tagline0.isEmpty then ([] : List Char) else tagline0.take 140
      (([(("status"), Val.s ("ok")),
         (("pagesChecked"), Val.list st.pagesChecked),
         (("metaDescription"), Val.s (if st.metaDescription != ("") then
            (⟨(sanitizeCore st.metaDescription.data).take 300⟩ : String) else (""))),
         (("ogDescription"), Val.s (if st.ogDescription != ("") then
            (⟨(sanitizeCore st.ogDescription.data).take 300⟩ : String) else (""))),
         (("title"), Val.s (if st.title != ("") then
            (⟨sanitizeCore st.title.data⟩ : String) else (""))),
         (("offers"), Val.list ((offers.take 3).map (fun cs => (⟨cs⟩ : String)))),
         (("financingOptions"), Val.s (⟨joinSanitized financing_raw⟩ : String)),
         (("warrantyText"), Val.s (⟨joinSanitized warranty_raw⟩ : String)),
         (("spanish"), Val.b (!spanish.isEmpty)),
         (("insured"), Val.b (!insured.isEmpty)),
         (("bonded"), Val.b (!bonded.isEmpty)),
         (("virtual"), Val.b (!virtual.isEmpty)),
         (("highlights"), Val.list ((highlights.take 3).map (fun cs => (⟨cs⟩ : String)))),
         (("highlightsTagline"), Val.s (⟨tagline⟩ : String))]),
       st.attempts)

/-!  ## Helper lemmas

Character-conservation facts (every pipeline step only deletes
characters or inserts plain spaces), length bounds for the truncation
chain, and analysis lemmas for the matchers. -/

theorem mem_of_mem_dropWhileCh {p : Char → Bool} {l : List Char} {a : Char}
    (h : a ∈ l.dropWhile p) : a ∈ l := by
  rw [← List.takeWhile_append_dropWhile p l]
  exact List.mem_append_right _ h

theorem mem_rstripL {a : Char} : ∀ {l : List Char}, a ∈ rstripL l → a ∈ l := by
  intro l
  induction l with
  | nil => simp [rstripL]
  | cons c cs ih =>
    intro h
    rw [rstripL] at h
    cases hr : rstripL cs with
    | nil =>
      rw [hr] at h
      by_cases hc : pyIsSpace c
      · simp [hc] at h
      · simp [hc] at h
        simp [h]
    | cons d ds =>
      rw [hr] at h
      rcases List.mem_cons.mp h with h | h
      · simp [h]
      · exact List.mem_cons_of_mem _ (ih (hr ▸ h))

theorem mem_pyStrip {a : Char} {l : List Char} (h : a ∈ pyStrip l) : a ∈ l :=
  mem_of_mem_dropWhileCh (mem_rstripL h)

theorem wsCollapse_one (c : Char) : wsCollapse [c] = if pyIsSpace c then [' '] else [c] := rfl

theorem wsCollapse_cons₂ (c c2 : Char) (rest : List Char) :
    wsCollapse (c :: c2 :: rest) =
      if pyIsSpace c then
        (if pyIsSpace c2 then wsCollapse (c2 :: rest) else ' ' :: wsCollapse (c2 :: rest))
      else c :: wsCollapse (c2 :: rest) := rfl

theorem pipeCollapse_one (c : Char) :
    pipeCollapse [c] = if isPipeChar c then [' '] else [c] := rfl

theorem pipeCollapse_cons₂ (c c2 : Char) (rest : List Char) :
    pipeCollapse (c :: c2 :: rest) =
      if isPipeChar c then
        (if isPipeChar c2 then pipeCollapse (c2 :: rest) else ' ' :: pipeCollapse (c2 :: rest))
      else c :: pipeCollapse (c2 :: rest) := rfl

theorem mem_wsCollapse {a : Char} : ∀ {l : List Char}, a ∈ wsCollapse l → a ∈ l ∨ a = ' ' := by
  intro l
  induction l with
  | nil => simp [wsCollapse]
  | cons c cs ih =>
    intro h
    cases cs with
    | nil =>
      by_cases hc : pyIsSpace c <;> simp [wsCollapse_one, hc] at h <;> simp [h]
    | cons c2 rest =>
      rw [wsCollapse_cons₂] at h
      by_cases hc : pyIsSpace c
      · rw [if_pos hc] at h
        by_cases h2 : pyIsSpace c2
        · rw [if_pos h2] at h
          rcases ih h with h | h
          · exact Or.inl (List.mem_cons_of_mem _ h)
          · exact Or.inr h
        · rw [if_neg h2] at h
          rcases List.mem_cons.mp h with h | h
          · exact Or.inr h
          · rcases ih h with h | h
            · exact Or.inl (List.mem_cons_of_mem _ h)
            · exact Or.inr h
      · rw [if_neg hc] at h
        rcases List.mem_cons.mp h with h | h
        · exact Or.inl (by simp [h])
        · rcases ih h with h | h
          · exact Or.inl (List.mem_cons_of_mem _ h)
          · exact Or.inr h

theorem mem_pipeCollapse {a : Char} : ∀ {l : List Char}, a ∈ pipeCollapse l → a ∈ l ∨ a = ' ' := by
  intro l
  induction l with
  | nil => simp [pipeCollapse]
  | cons c cs ih =>
    intro h
    cases cs with
    | nil =>
      by_cases hc : isPipeChar c <;> simp [pipeCollapse_one, hc] at h <;> simp [h]
    | cons c2 rest =>
      rw [pipeCollapse_cons₂] at h
      by_cases hc : isPipeChar c
      · rw [if_pos hc] at h
        by_cases h2 : isPipeChar c2
        · rw [if_pos h2] at h
          rcases ih h with h | h
          · exact Or.inl (List.mem_cons_of_mem _ h)
          · exact Or.inr h
        · rw [if_neg h2] at h
          rcases List.mem_cons.mp h with h | h
          · exact Or.inr h
          · rcases ih h with h | h
            · exact Or.inl (List.mem_cons_of_mem _ h)
            · exact Or.inr h
      · rw [if_neg hc] at h
        rcases List.mem_cons.mp h with h | h
        · exact Or.inl (by simp [h])
        · rcases ih h with h | h
          · exact Or.inl (List.mem_cons_of_mem _ h)
          · exact Or.inr h

theorem mem_subAllB (m : PMatch) :
    ∀ (fuel : Nat) (prev : Option Char) (cs : List Char) {a : Char},
      a ∈ subAllB m fuel prev cs → a ∈ cs := by
  intro fuel
  induction fuel with
  | zero => intro prev cs a h; simpa [subAllB] using h
  | succ n ih =>
    intro prev cs a h
    cases cs with
    | nil => simp [subAllB] at h
    | cons c rest =>
      rw [subAllB] at h
      cases hm : m prev (c :: rest) with
      | none =>
        rw [hm] at h
        rcases List.mem_cons.mp h with h | h
        · simp [h]
        · exact List.mem_cons_of_mem _ (ih _ rest h)
      | some k =>
        rw [hm] at h
        cases k with
        | zero =>
          rcases List.mem_cons.mp h with h | h
          · simp [h]
          · exact List.mem_cons_of_mem _ (ih _ rest h)
        | succ j =>
          exact List.mem_of_mem_drop (ih _ _ h)

theorem mem_subB (m : PMatch) (cs : List Char) {a : Char} (h : a ∈ subB m cs) : a ∈ cs :=
  mem_subAllB m _ _ _ h

theorem mem_ctaFoldSub :
    ∀ (ws : List (List Char)) (t : List Char) {a : Char},
      a ∈ ws.foldl (fun t w => subB (ctaMatchLen w) t) t → a ∈ t := by
  intro ws
  induction ws with
  | nil => intro t a h; simpa using h
  | cons w ws ih =>
    intro t a h
    simp only [List.foldl_cons] at h
    exact mem_subB _ _ (ih _ h)

theorem sanitizeCore_eq (cs : List Char) :
    sanitizeCore cs =
      if (clean_strL cs).isEmpty then [] else
      pyStrip (pipeCollapse (pyStrip (wsCollapse
        (CTA_WORDS.foldl (fun t w => subB (ctaMatchLen w) t)
          (subB phoneMatchLen (subB urlMatchLen (clean_strL cs))))))) := rfl

theorem mem_sanitizeCore {cs : List Char} {a : Char} (h : a ∈ sanitizeCore cs) :
    a ∈ cs ∨ a = ' ' := by
  rw [sanitizeCore_eq] at h
  by_cases h0 : (clean_strL cs).isEmpty
  · rw [if_pos h0] at h
    simp at h
  · rw [if_neg h0] at h
    have h1 := mem_pyStrip h
    rcases mem_pipeCollapse h1 with h2 | h2
    · have h3 := mem_pyStrip h2
      rcases mem_wsCollapse h3 with h4 | h4
      · have h5 := mem_ctaFoldSub _ _ h4
        have h6 := mem_subB _ _ h5
        have h7 := mem_subB _ _ h6
        exact Or.inl (mem_pyStrip h7)
      · exact Or.inr h4
    · exact Or.inr h2

theorem rstripL_length_le : ∀ (l : List Char), (rstripL l).length ≤ l.length := by
  intro l
  induction l with
  | nil => simp [rstripL]
  | cons c cs ih =>
    rw [rstripL]
    cases hr : rstripL cs with
    | nil =>
      by_cases hc : pyIsSpace c <;> simp [hc]
    | cons d ds =>
      have := ih
      rw [hr] at this
      simpa using Nat.succ_le_succ this

theorem pyStrip_length_le (l : List Char) : (pyStrip l).length ≤ l.length := by
  calc (pyStrip l).length ≤ (l.dropWhile pyIsSpace).length := rstripL_length_le _
    _ ≤ l.length := (List.dropWhile_sublist pyIsSpace).length_le

theorem dropLastTok_length_le (l : List Char) : (dropLastTok l).length ≤ l.length := by
  rw [dropLastTok]
  by_cases h : l.any pyIsSpace
  · simp only [h, if_true]
    calc ((((l.reverse).dropWhile (fun c => !pyIsSpace c)).dropWhile pyIsSpace).reverse).length
        = (((l.reverse).dropWhile (fun c => !pyIsSpace c)).dropWhile pyIsSpace).length := by
          simp
      _ ≤ ((l.reverse).dropWhile (fun c => !pyIsSpace c)).length :=
          (List.dropWhile_sublist pyIsSpace).length_le
      _ ≤ l.reverse.length := (List.dropWhile_sublist _).length_le
      _ = l.length := by simp
  · simp [h]

theorem mLit_consume :
    ∀ (pat cs : List Char) (n : Nat) (rest : List Char),
      mLit pat cs = some (n, rest) → ∃ u, cs = u ++ rest := by
  intro pat
  induction pat with
  | nil =>
    intro cs n rest h
    simp [mLit] at h
    exact ⟨[], by simp [h.2]⟩
  | cons p ps ih =>
    intro cs n rest h
    cases cs with
    | nil => simp [mLit] at h
    | cons c cs' =>
      rw [mLit] at h
      by_cases hc : ciChar p c
      · rw [if_pos hc] at h
        cases hm : mLit ps cs' with
        | none => rw [hm] at h; simp at h
        | some pr =>
          rw [hm] at h
          simp at h
          obtain ⟨u, hu⟩ := ih cs' pr.1 pr.2 (by rw [hm])
          refine ⟨c :: u, ?_⟩
          rw [← h.2]
          simp [hu]
      · rw [if_neg hc] at h
        simp at h

theorem mLit_mem :
    ∀ (pat cs : List Char) (pr : Nat × List Char),
      mLit pat cs = some pr → ∀ p ∈ pat, ∃ c ∈ cs, ciChar p c = true := by
  intro pat
  induction pat with
  | nil => intro cs pr _ p hp; simp at hp
  | cons p0 ps ih =>
    intro cs pr h p hp
    cases cs with
    | nil => simp [mLit] at h
    | cons c cs' =>
      rw [mLit] at h
      by_cases hc : ciChar p0 c
      · rw [if_pos hc] at h
        rcases List.mem_cons.mp hp with hp | hp
        · exact ⟨c, by simp, hp ▸ hc⟩
        · cases hm : mLit ps cs' with
          | none => rw [hm] at h; simp at h
          | some pr' =>
            obtain ⟨d, hd, hci⟩ := ih cs' pr' hm p hp
            exact ⟨d, List.mem_cons_of_mem _ hd, hci⟩
      · rw [if_neg hc] at h
        simp at h

theorem searchB_some (m : PMatch) :
    ∀ (cs : List Char) (prev : Option Char) (r : List Char),
      searchB m prev cs = some r →
      ∃ p t, (∃ u : List Char, cs = u ++ t) ∧ (m p t).isSome = true := by
  intro cs
  induction cs with
  | nil =>
    intro prev r h
    rw [searchB] at h
    cases hm : m prev [] with
    | none => rw [hm] at h; simp at h
    | some n => exact ⟨prev, [], ⟨[], rfl⟩, by rw [hm]; rfl⟩
  | cons c rest ih =>
    intro prev r h
    rw [searchB] at h
    cases hm : m prev (c :: rest) with
    | some n => exact ⟨prev, c :: rest, ⟨[], rfl⟩, by rw [hm]; rfl⟩
    | none =>
      rw [hm] at h
      obtain ⟨p, t, ⟨u, hu⟩, hsome⟩ := ih (some c) r h
      exact ⟨p, t, ⟨c :: u, by rw [hu]; rfl⟩, hsome⟩

theorem ciChar_colon {c : Char} (h : ciChar ':' c = true) : c = ':' := by
  have hu : upperOf ':' = ':' := by decide
  simp [ciChar, hu] at h
  exact h

theorem ciChar_dot {c : Char} (h : ciChar '.' c = true) : c = '.' := by
  have hu : upperOf '.' = '.' := by decide
  simp [ciChar, hu] at h
  exact h

theorem urlMatchLen_colon_dot {prev : Option Char} {cs : List Char} {n : Nat}
    (h : urlMatchLen prev cs = some n) : (':') ∈ cs ∨ ('.') ∈ cs := by
  cases h1 : mLit (("http").toList) cs with
  | some pr1 =>
    obtain ⟨n1, r1⟩ := pr1
    obtain ⟨u1, hu1⟩ := mLit_consume _ _ n1 r1 h1
    cases h2 : mLit (("s://").toList) r1 with
    | some pr2 =>
      obtain ⟨d, hd, hci⟩ := mLit_mem _ _ _ h2 (':') (by decide)
      exact Or.inl (by rw [hu1]; exact List.mem_append_right _ (ciChar_colon hci ▸ hd))
    | none =>
      cases h3 : mLit (("://").toList) r1 with
      | some pr3 =>
        obtain ⟨d, hd, hci⟩ := mLit_mem _ _ _ h3 (':') (by decide)
        exact Or.inl (by rw [hu1]; exact List.mem_append_right _ (ciChar_colon hci ▸ hd))
      | none =>
        exfalso
        rw [urlMatchLen, h1] at h
        simp at h2 h3
        simp [h2, h3] at h
  | none =>
    cases h4 : mLit (("www.").toList) cs with
    | some pr4 =>
      obtain ⟨d, hd, hci⟩ := mLit_mem _ _ _ h4 ('.') (by decide)
      exact Or.inr (ciChar_dot hci ▸ hd)
    | none =>
      exfalso
      rw [urlMatchLen, h1] at h
      simp at h4
      simp [h4] at h

theorem mClsOpt_consume {q : Char → Bool} {l : List Char} {pr : Nat × List Char}
    (h : mClsOpt q l = some pr) : ∃ u, l = u ++ pr.2 := by
  cases l with
  | nil => simp [mClsOpt] at h; exact ⟨[], by simp [← h]⟩
  | cons c l' =>
    rw [mClsOpt] at h
    by_cases hc : q c
    · rw [if_pos hc] at h
      simp at h
      exact ⟨[c], by simp [← h]⟩
    · rw [if_neg hc] at h
      simp at h
      exact ⟨[], by simp [← h]⟩

theorem mClsRep_mem {q : Char → Bool} {k : Nat} {l : List Char} {pr : Nat × List Char}
    (hk : k ≠ 0) (h : mClsRep q k l = some pr) : ∃ c ∈ l, q c = true := by
  rw [mClsRep] at h
  by_cases hc : ((l.take k).length == k && (l.take k).all q) = true
  · have h1 : (l.take k).length = k := by
      have := ((Bool.and_eq_true _ _).mp hc).1
      simpa using this
    have h2 : (l.take k).all q = true := ((Bool.and_eq_true _ _).mp hc).2
    cases ht : l.take k with
    | nil => rw [ht] at h1; simp at h1; exact absurd h1.symm hk
    | cons d ds =>
      have hd : q d = true := List.all_eq_true.mp h2 d (by rw [ht]; simp)
      exact ⟨d, List.mem_of_mem_take (l := l) (by rw [ht]; simp), hd⟩
  · rw [if_neg hc] at h
    simp at h

theorem phoneCore_digit : ∀ {cs : List Char} {n : Nat},
    phoneCore cs = some n → ∃ c ∈ cs, c.isDigit = true := by
  intro cs n h
  cases h1 : mClsOpt (fun c => c == '(') cs with
  | none => rw [phoneCore, h1] at h; simp at h
  | some pr1 =>
    obtain ⟨a, r1⟩ := pr1
    cases h2 : mClsRep (fun c => c.isDigit) 3 r1 with
    | none =>
      rw [phoneCore, h1] at h
      simp [h2] at h
    | some pr2 =>
      obtain ⟨d, hd, hdig⟩ := mClsRep_mem (by decide) h2
      obtain ⟨u, hu⟩ := mClsOpt_consume h1
      exact ⟨d, by rw [hu]; exact List.mem_append_right _ hd, hdig⟩

theorem phoneMatchLen_nil (prev : Option Char) : phoneMatchLen prev [] = none := rfl

theorem phoneMatchLen_cons (prev : Option Char) (c : Char) (cs2 : List Char) :
    phoneMatchLen prev (c :: cs2) =
      (let p : Nat := if c == '+' then 1 else 0
       let r0 : List Char := if c == '+' then cs2 else c :: cs2
       match r0 with
       | '1' :: r1 =>
         let k := (r1.takeWhile pyIsSpace).length
         (match phoneCore (r1.drop k) with
          | some n => some (p + 1 + k + n)
          | none => (phoneCore (('1') :: r1)).map (fun n => p + n))
       | _ =>
         let k := (r0.takeWhile pyIsSpace).length
         (phoneCore (r0.drop k)).map (fun n => p + k + n)) := by
  by_cases hp : c == '+' <;> simp [phoneMatchLen, hp]

theorem phoneMatchLen_digit {prev : Option Char} {cs : List Char} {n : Nat}
    (h : phoneMatchLen prev cs = some n) : ∃ c ∈ cs, c.isDigit = true := by
  cases cs with
  | nil => rw [phoneMatchLen_nil] at h; simp at h
  | cons c cs2 =>
    rw [phoneMatchLen_cons] at h
    by_cases hp : c == '+'
    · simp only [hp, if_true] at h
      split at h
      · rename_i r1
        exact ⟨'1', by simp, by decide⟩
      · rw [Option.map_eq_some'] at h
        obtain ⟨m, hm, -⟩ := h
        obtain ⟨d, hd, hdig⟩ := phoneCore_digit hm
        exact ⟨d, List.mem_cons_of_mem _ (List.mem_of_mem_drop hd), hdig⟩
    · simp only [hp, Bool.false_eq_true, if_false] at h
      split at h
      · rename_i r1 heq
        exact ⟨'1', by rw [heq]; simp, by decide⟩
      · rw [Option.map_eq_some'] at h
        obtain ⟨m, hm, -⟩ := h
        obtain ⟨d, hd, hdig⟩ := phoneCore_digit hm
        exact ⟨d, List.mem_of_mem_drop hd, hdig⟩

theorem urlFoundB_false_of_chars {cs : List Char}
    (h1 : (':') ∉ cs) (h2 : ('.') ∉ cs) : urlFoundB cs = false := by
  cases hs : searchB urlMatchLen none cs with
  | none => simp [urlFoundB, hs]
  | some r =>
    exfalso
    obtain ⟨p, t, ⟨u, hu⟩, hsome⟩ := searchB_some _ _ _ _ hs
    obtain ⟨n, hn⟩ := Option.isSome_iff_exists.mp hsome
    rcases urlMatchLen_colon_dot hn with hin | hin
    · exact h1 (hu ▸ List.mem_append_right _ hin)
    · exact h2 (hu ▸ List.mem_append_right _ hin)

theorem phoneFoundB_false_of_chars {cs : List Char}
    (h : ∀ c ∈ cs, c.isDigit = false) : phoneFoundB cs = false := by
  cases hs : searchB phoneMatchLen none cs with
  | none => simp [phoneFoundB, hs]
  | some r =>
    exfalso
    obtain ⟨p, t, ⟨u, hu⟩, hsome⟩ := searchB_some _ _ _ _ hs
    obtain ⟨n, hn⟩ := Option.isSome_iff_exists.mp hsome
    obtain ⟨d, hd, hdig⟩ := phoneMatchLen_digit hn
    have := h d (hu ▸ List.mem_append_right _ hd)
    rw [this] at hdig
    exact Bool.false_ne_true hdig

/-- Claim C1 (counterexample): the sanitizer's output is not always free
of URL-pattern and phone-pattern matches.  Removing the phone number
from `"ww555-123-4567w.x"` splices the remaining characters into
`"www.x"`, which the URL pattern matches; and removing the CTA word
`call` from `"http:/call/x"` splices `"http://x"` together even though
the input contains no digits. -/
theorem sanitize_leaks_counterexample :
    strip_contact_and_cta ("ww555-123-4567w.x") = ("www.x") ∧
    urlFoundB (strip_contact_and_cta ("ww555-123-4567w.x")).data = true ∧
    strip_contact_and_cta ("http:/call/x") = ("http://x") ∧
    urlFoundB (strip_contact_and_cta ("http:/call/x")).data = true := by
  refine ⟨?_, ?_, ?_, ?_⟩ <;> decide

/-- Claim C1 (amended): the sanitizer's pipeline only deletes characters
or inserts spaces, and a URL-pattern match needs a `:` or `.` while a
phone-pattern match needs a digit; so for every input string containing
no digit, no `.` and no `:`, the output contains no substring matching
the URL pattern and none matching the phone pattern.  (For arbitrary
inputs the property fails: removal can splice new matches together, see
the counterexample.) -/
theorem sanitize_clean_of_plain_chars (s : String)
    (h : s.data.all (fun c => !(c.isDigit || c == '.' || c == ':')) = true) :
    urlFoundB (strip_contact_and_cta s).data = false ∧
    phoneFoundB (strip_contact_and_cta s).data = false := by
  have hdata : (strip_contact_and_cta s).data = sanitizeCore s.data := rfl
  rw [hdata]
  have hall := List.all_eq_true.mp h
  constructor
  · apply urlFoundB_false_of_chars
    · intro hin
      rcases mem_sanitizeCore hin with hin | hin
      · exact absurd (hall (':') hin) (by decide)
      · exact absurd hin (by decide)
    · intro hin
      rcases mem_sanitizeCore hin with hin | hin
      · exact absurd (hall ('.') hin) (by decide)
      · exact absurd hin (by decide)
  · apply phoneFoundB_false_of_chars
    intro d hd
    rcases mem_sanitizeCore hd with hd | hd
    · have := hall d hd
      cases hdig : d.isDigit
      · rfl
      · rw [hdig] at this; simp at this
    · rw [hd]; decide

/-- Witness for the amended C1 at a concrete digit-, dot- and colon-free
input. -/
theorem sanitize_clean_of_plain_chars_witness :
    urlFoundB (strip_contact_and_cta ("hello world")).data = false ∧
    phoneFoundB (strip_contact_and_cta ("hello world")).data = false :=
  sanitize_clean_of_plain_chars ("hello world") (by decide)

theorem foldl_searchers_last :
    ∀ (fs : List (List Char → Option (List Char))) (t : List Char),
      (List.foldl (fun t f => (f t).getD t) t fs = t ∧ ∀ f ∈ fs, f t = none) ∨
      (∃ l₁ f l₂, fs = l₁ ++ f :: l₂ ∧
        (∃ u, f u = some (List.foldl (fun t f => (f t).getD t) t fs)) ∧
        ∀ g ∈ l₂, g (List.foldl (fun t f => (f t).getD t) t fs) = none) := by
  intro fs
  induction fs with
  | nil => intro t; exact Or.inl ⟨rfl, by simp⟩
  | cons f fs ih =>
    intro t
    cases hf : f t with
    | none =>
      have hfold : List.foldl (fun t f => (f t).getD t) t (f :: fs) =
          List.foldl (fun t f => (f t).getD t) t fs := by simp [hf]
      rcases ih t with ⟨heq, hall⟩ | ⟨l₁, g, l₂, hsplit, hu, hrest⟩
      · refine Or.inl ⟨by rw [hfold, heq], ?_⟩
        intro g hg
        rcases List.mem_cons.mp hg with rfl | hg
        · exact hf
        · exact hall g hg
      · refine Or.inr ⟨f :: l₁, g, l₂, by rw [hsplit]; rfl, ?_, ?_⟩
        · rw [hfold]; exact hu
        · rw [hfold]; exact hrest
    | some v =>
      have hfold : List.foldl (fun t f => (f t).getD t) t (f :: fs) =
          List.foldl (fun t f => (f t).getD t) v fs := by simp [hf]
      rcases ih v with ⟨heq, hall⟩ | ⟨l₁, g, l₂, hsplit, hu, hrest⟩
      · refine Or.inr ⟨[], f, fs, rfl, ⟨t, ?_⟩, ?_⟩
        · rw [hfold, heq]; exact hf
        · intro g hg; rw [hfold, heq]; exact hall g hg
      · refine Or.inr ⟨f :: l₁, g, l₂, by rw [hsplit]; rfl, ?_, ?_⟩
        · rw [hfold]; exact hu
        · rw [hfold]; exact hrest

/-- Claim C2 (counterexample): the first-match-wins description is wrong
for the code.  On `"free lifetime warranty"` the first matching pattern
is the free-X-Y pattern, whose match is the whole text; but the loop has
no break, the later lifetime-warranty pattern matches inside that
replacement, and the code returns `"lifetime warranty"` instead. -/
theorem compress_not_first_match_only :
    compress_to_offer ("free lifetime warranty") = ("lifetime warranty") ∧
    specFirstMatchCompress ("free lifetime warranty") = ("free lifetime warranty") ∧
    (("lifetime warranty") : String) ≠ ("free lifetime warranty") := by
  refine ⟨?_, ?_, ?_⟩ <;> decide

/-- Claim C2 (amended): the offer-pattern loop applies every pattern in
priority order to the evolving text, each match replacing the current
text with the matched substring, so later patterns run against (and may
further shrink) earlier replacements.  Consequently the loop's result is
either the input text with no pattern matching it at any stage, or a
substring matched by some pattern in the list such that every pattern
after that one fails to match the final text; the first matching pattern
alone determines the output only when no later pattern matches inside
its match. -/
theorem offerPhase_successive_replacement (t : List Char) :
    (offerPhase t = t ∧ ∀ f ∈ offerSearchers, f t = none) ∨
    (∃ l₁ f l₂, offerSearchers = l₁ ++ f :: l₂ ∧
      (∃ u, f u = some (offerPhase t)) ∧ ∀ g ∈ l₂, g (offerPhase t) = none) := by
  have h := foldl_searchers_last offerSearchers t
  simpa [offerPhase] using h

theorem compressTrunc_length_le (cs : List Char) :
    (compressTrunc cs).length ≤ MAX_OFFER_LEN := by
  rw [compressTrunc]
  by_cases hl : MAX_OFFER_LEN < (compressMid cs).length
  · rw [if_pos hl]
    by_cases he : (pyStrip (dropLastTok (rstripL ((compressMid cs).take MAX_OFFER_LEN)))).isEmpty
    · rw [if_pos he]
      calc (pyStrip ((sanitizeCore cs).take MAX_OFFER_LEN)).length
          ≤ ((sanitizeCore cs).take MAX_OFFER_LEN).length := pyStrip_length_le _
        _ ≤ MAX_OFFER_LEN := List.length_take_le _ _
    · rw [if_neg he]
      calc (pyStrip (dropLastTok (rstripL ((compressMid cs).take MAX_OFFER_LEN)))).length
          ≤ (dropLastTok (rstripL ((compressMid cs).take MAX_OFFER_LEN))).length :=
            pyStrip_length_le _
        _ ≤ (rstripL ((compressMid cs).take MAX_OFFER_LEN)).length := dropLastTok_length_le _
        _ ≤ ((compressMid cs).take MAX_OFFER_LEN).length := rstripL_length_le _
        _ ≤ MAX_OFFER_LEN := List.length_take_le _ _
  · rw [if_neg hl]
    exact Nat.le_of_not_lt hl

theorem compressCore_spec (cs : List Char) :
    (compressCore cs).length ≤ MAX_OFFER_LEN ∧
    (compressCore cs ≠ [] →
      urlFoundB (compressCore cs) = false ∧ phoneFoundB (compressCore cs) = false) := by
  rw [compressCore]
  by_cases h0 : (sanitizeCore cs).isEmpty
  · rw [if_pos h0]
    exact ⟨by simp [MAX_OFFER_LEN], by simp⟩
  · rw [if_neg h0]
    by_cases hg : ((searchB urlMatchLen none (compressTrunc cs)).isSome ||
        (searchB phoneMatchLen none (compressTrunc cs)).isSome) = true
    · rw [if_pos hg]
      exact ⟨by simp [MAX_OFFER_LEN], by simp⟩
    · rw [if_neg hg]
      have hfalse : ((searchB urlMatchLen none (compressTrunc cs)).isSome ||
          (searchB phoneMatchLen none (compressTrunc cs)).isSome) = false :=
        Bool.eq_false_iff.mpr hg
      have hboth := (Bool.or_eq_false_iff).mp hfalse
      refine ⟨compressTrunc_length_le cs, fun _ => ⟨?_, ?_⟩⟩
      · exact hboth.1
      · exact hboth.2

/-- Claim C3 (confirmed): for every input string, `compress_to_offer`
returns at most `MAX_OFFER_LEN` (30) characters, and a non-empty result
contains no substring matching the URL pattern and none matching the
phone pattern (the final guard of lines 142-143 returns empty
otherwise). -/
theorem compress_length_and_no_contact (s : String) :
    (compress_to_offer s).length ≤ MAX_OFFER_LEN ∧
    (compress_to_offer s ≠ ("") →
      urlFoundB (compress_to_offer s).data = false ∧
      phoneFoundB (compress_to_offer s).data = false) := by
  have hcore := compressCore_spec s.data
  refine ⟨hcore.1, fun hne => ?_⟩
  refine hcore.2 ?_
  intro hnil
  apply hne
  apply String.ext
  exact hnil

/-- Witness for C3 at concrete inputs: a long offer-free sentence is cut
to a word boundary within 30 characters, and the non-empty result is
contact-free. -/
theorem compress_length_and_no_contact_witness :
    (compress_to_offer ("this is a quite long sentence with no offers in it at all")).length ≤
      MAX_OFFER_LEN ∧
    compress_to_offer ("this is a quite long sentence with no offers in it at all") =
      ("this is a quite long") ∧
    urlFoundB (compress_to_offer
      ("this is a quite long sentence with no offers in it at all")).data = false := by
  refine ⟨(compress_length_and_no_contact _).1, by decide, ?_⟩
  exact ((compress_length_and_no_contact _).2 (by decide)).1

theorem mem_fsEntry {s e : List Char} (h : e ∈ fsEntry s) :
    sanitizeCore s ≠ [] ∧ e = (sanitizeCore s).take 240 := by
  rw [fsEntry] at h
  by_cases he : (sanitizeCore s).isEmpty
  · rw [if_pos he] at h
    simp at h
  · rw [if_neg he] at h
    simp at h
    exact ⟨by simpa using he, h⟩

theorem fsEntry_length_le (s : List Char) : (fsEntry s).length ≤ 1 := by
  rw [fsEntry]
  by_cases he : (sanitizeCore s).isEmpty <;> simp [he]

theorem goFS_length_le (pred : List Char → Bool) (maxItems : Nat) :
    ∀ (sents hits : List (List Char)),
      hits.length < maxItems → (goFS pred maxItems sents hits).length ≤ maxItems := by
  intro sents
  induction sents with
  | nil => intro hits h; rw [goFS]; exact Nat.le_of_lt h
  | cons s rest ih =>
    intro hits h
    simp only [goFS]
    by_cases hshort : (pyStrip s).length < 18
    · rw [if_pos hshort]
      exact ih hits h
    · rw [if_neg hshort]
      have hlen2 : (hits ++ (if pred (pyStrip s) then fsEntry (pyStrip s) else [])).length ≤
          hits.length + 1 := by
        by_cases hp : pred (pyStrip s)
        · have := fsEntry_length_le (pyStrip s)
          simp only [hp, if_true, List.length_append]
          omega
        · simp [hp]
      by_cases hstop :
          maxItems ≤ (hits ++ (if pred (pyStrip s) then fsEntry (pyStrip s) else [])).length
      · rw [if_pos hstop]
        omega
      · rw [if_neg hstop]
        exact ih _ (Nat.lt_of_not_le hstop)

theorem goFS_entries (pred : List Char → Bool) (maxItems : Nat) :
    ∀ (sents hits : List (List Char)),
      (∀ e ∈ hits, e ≠ [] ∧ e.length ≤ 240 ∧
        ∃ s, 18 ≤ s.length ∧ pred s = true ∧ e = (sanitizeCore s).take 240) →
      ∀ e ∈ goFS pred maxItems sents hits, e ≠ [] ∧ e.length ≤ 240 ∧
        ∃ s, 18 ≤ s.length ∧ pred s = true ∧ e = (sanitizeCore s).take 240 := by
  intro sents
  induction sents with
  | nil => intro hits hinv e he; rw [goFS] at he; exact hinv e he
  | cons s rest ih =>
    intro hits hinv e he
    simp only [goFS] at he
    by_cases hshort : (pyStrip s).length < 18
    · rw [if_pos hshort] at he
      exact ih hits hinv e he
    · rw [if_neg hshort] at he
      have hinv2 : ∀ e ∈ hits ++ (if pred (pyStrip s) then fsEntry (pyStrip s) else []),
          e ≠ [] ∧ e.length ≤ 240 ∧
          ∃ s, 18 ≤ s.length ∧ pred s = true ∧ e = (sanitizeCore s).take 240 := by
        intro e2 he2
        rcases List.mem_append.mp he2 with he2 | he2
        · exact hinv e2 he2
        · by_cases hp : pred (pyStrip s)
          · rw [if_pos hp] at he2
            obtain ⟨hne, heq⟩ := mem_fsEntry he2
            refine ⟨?_, ?_, pyStrip s, Nat.le_of_not_lt hshort, hp, heq⟩
            · rw [heq]
              intro hnil
              rcases List.take_eq_nil_iff.mp hnil with h240 | hsan
              · simp at h240
              · exact hne hsan
            · rw [heq]
              exact List.length_take_le _ _
          · rw [if_neg hp] at he2
            simp at he2
      by_cases hstop :
          maxItems ≤ (hits ++ (if pred (pyStrip s) then fsEntry (pyStrip s) else [])).length
      · rw [if_pos hstop] at he
        exact hinv2 e he
      · rw [if_neg hstop] at he
        exact ih _ hinv2 e he

theorem find_sentencesCore_spec (text : List Char) (pred : List Char → Bool) (maxItems : Nat)
    (h : 1 ≤ maxItems) :
    (find_sentencesCore text pred maxItems).length ≤ maxItems ∧
    ∀ e ∈ find_sentencesCore text pred maxItems, e ≠ [] ∧ e.length ≤ 240 ∧
      ∃ s, 18 ≤ s.length ∧ pred s = true ∧ e = (sanitizeCore s).take 240 := by
  rw [find_sentencesCore]
  by_cases h0 : text.isEmpty
  · rw [if_pos h0]
    exact ⟨Nat.le_trans (by simp) h, by simp⟩
  · rw [if_neg h0]
    refine ⟨goFS_length_le pred maxItems _ [] (by simpa using h), ?_⟩
    exact goFS_entries pred maxItems _ [] (by simp)

/-- Claim C4 (counterexample): with `max_items = 0` the loop appends the
entry from the first qualifying sentence before the cap check runs, so
the result has one entry, more than `max_items`. -/
theorem find_sentences_cap_counterexample :
    (find_sentences ("aaaaaaaaaaaaaaaaaa") (fun _ => true) 0).length = 1 := by decide

/-- Claim C4 (amended): for every text, pattern predicate and
`max_items ≥ 1`, `find_sentences` returns at most `max_items` entries,
and every entry is non-empty, at most 240 characters long, and is the
240-truncated sanitization of a stripped sentence at least 18 characters
long (pre-sanitization) that the predicate matched; in particular
sentences shorter than 18 characters are never included.  For
`max_items = 0` the bound fails (the cap check runs only after a
qualifying sentence was appended). -/
theorem find_sentences_bounded (text : String) (pred : String → Bool) (maxItems : Nat)
    (h : 1 ≤ maxItems) :
    (find_sentences text pred maxItems).length ≤ maxItems ∧
    ∀ e ∈ find_sentences text pred maxItems, e ≠ ("") ∧ e.length ≤ 240 ∧
      ∃ s : String, 18 ≤ s.length ∧ pred s = true ∧
        e.data = (sanitizeCore s.data).take 240 := by
  have hcore := find_sentencesCore_spec text.data (fun cs => pred ⟨cs⟩) maxItems h
  constructor
  · simpa [find_sentences] using hcore.1
  · intro e he
    rw [find_sentences] at he
    obtain ⟨cs, hcs, hmk⟩ := List.mem_map.mp he
    obtain ⟨hne, hlen, s, hs18, hsp, heq⟩ := hcore.2 cs hcs
    subst hmk
    refine ⟨?_, ?_, ⟨s⟩, hs18, hsp, heq⟩
    · intro habs
      exact hne (by simpa [String.ext_iff] using habs)
    · exact hlen

/-- Witness for the amended C4 at a concrete text and cap. -/
theorem find_sentences_bounded_witness :
    (find_sentences ("an offer sentence here.") (fun _ => true) 2).length ≤ 2 :=
  (find_sentences_bounded ("an offer sentence here.") (fun _ => true) 2 (by decide)).1

theorem hasDoubleWS_nil : hasDoubleWS [] = false := rfl

theorem hasDoubleWS_single (a : Char) : hasDoubleWS [a] = false := rfl

theorem hasDoubleWS_cons₂ (a b : Char) (r : List Char) :
    hasDoubleWS (a :: b :: r) = ((pyIsSpace a && pyIsSpace b) || hasDoubleWS (b :: r)) := rfl

theorem hasDoubleWS_cons (a : Char) (l : List Char) :
    hasDoubleWS (a :: l) = ((pyIsSpace a && l.head?.elim false pyIsSpace) || hasDoubleWS l) := by
  cases l with
  | nil => simp [hasDoubleWS_nil, hasDoubleWS_single]
  | cons b r => simp [hasDoubleWS_cons₂, Option.elim]

theorem pipeCollapse_no_pipe : ∀ (l : List Char) (c : Char),
    c ∈ pipeCollapse l → isPipeChar c = false := by
  intro l
  induction l with
  | nil => simp [pipeCollapse]
  | cons a cs ih =>
    intro c h
    cases cs with
    | nil =>
      by_cases ha : isPipeChar a
      · rw [pipeCollapse_one, if_pos ha] at h
        simp at h
        rw [h]; decide
      · rw [pipeCollapse_one, if_neg ha] at h
        simp at h
        rw [h]; exact Bool.eq_false_iff.mpr ha
    | cons b rest =>
      rw [pipeCollapse_cons₂] at h
      by_cases ha : isPipeChar a
      · rw [if_pos ha] at h
        by_cases hb : isPipeChar b
        · rw [if_pos hb] at h
          exact ih c h
        · rw [if_neg hb] at h
          rcases List.mem_cons.mp h with rfl | h
          · decide
          · exact ih c h
      · rw [if_neg ha] at h
        rcases List.mem_cons.mp h with rfl | h
        · exact Bool.eq_false_iff.mpr ha
        · exact ih c h

theorem wsCollapse_head : ∀ (l : List Char),
    (wsCollapse l).head? = l.head?.map (fun c => if pyIsSpace c then ' ' else c) := by
  intro l
  induction l with
  | nil => simp [wsCollapse]
  | cons c cs ih =>
    cases cs with
    | nil =>
      by_cases hc : pyIsSpace c <;> simp [wsCollapse_one, hc]
    | cons c2 rest =>
      rw [wsCollapse_cons₂]
      by_cases hc : pyIsSpace c
      · by_cases h2 : pyIsSpace c2
        · rw [if_pos hc, if_pos h2, ih]
          simp [hc, h2]
        · rw [if_pos hc, if_neg h2]
          simp [hc]
      · rw [if_neg hc]
        simp [hc]

theorem wsCollapse_noDouble : ∀ (l : List Char), hasDoubleWS (wsCollapse l) = false := by
  intro l
  induction l with
  | nil => simp [wsCollapse, hasDoubleWS_nil]
  | cons c cs ih =>
    cases cs with
    | nil =>
      by_cases hc : pyIsSpace c <;>
        simp [wsCollapse_one, hc, hasDoubleWS_single]
    | cons c2 rest =>
      rw [wsCollapse_cons₂]
      by_cases hc : pyIsSpace c
      · by_cases h2 : pyIsSpace c2
        · rw [if_pos hc, if_pos h2]
          exact ih
        · rw [if_pos hc, if_neg h2]
          rw [hasDoubleWS_cons, wsCollapse_head (c2 :: rest)]
          simp [h2, ih]
      · rw [if_neg hc]
        rw [hasDoubleWS_cons]
        simp [hc, ih]

theorem hasDoubleWS_append_left :
    ∀ (t : List Char) {u : List Char}, hasDoubleWS (t ++ u) = false → hasDoubleWS t = false := by
  intro t
  induction t with
  | nil => intro u _; rfl
  | cons a t ih =>
    intro u h
    cases t with
    | nil => rfl
    | cons b t2 =>
      rw [List.cons_append, List.cons_append, hasDoubleWS_cons₂] at h
      rw [← List.cons_append] at h
      obtain ⟨h1, h2⟩ := Bool.or_eq_false_iff.mp h
      rw [hasDoubleWS_cons₂, h1]
      simpa using ih h2

theorem hasDoubleWS_append_right :
    ∀ (t : List Char) {u : List Char}, hasDoubleWS (t ++ u) = false → hasDoubleWS u = false := by
  intro t
  induction t with
  | nil => intro u h; simpa using h
  | cons a t ih =>
    intro u h
    rw [List.cons_append, hasDoubleWS_cons] at h
    exact ih (Bool.or_eq_false_iff.mp h).2

theorem rstripL_isPref : ∀ (l : List Char), ∃ u, l = rstripL l ++ u := by
  intro l
  induction l with
  | nil => exact ⟨[], rfl⟩
  | cons c cs ih =>
    rw [rstripL]
    cases hr : rstripL cs with
    | nil =>
      by_cases hc : pyIsSpace c
      · rw [if_pos hc]
        exact ⟨c :: cs, rfl⟩
      · rw [if_neg hc]
        exact ⟨cs, rfl⟩
    | cons d ds =>
      obtain ⟨u, hu⟩ := ih
      rw [hr] at hu
      exact ⟨u, by rw [List.cons_append, ← hu]⟩

theorem hasDoubleWS_pyStrip {l : List Char} (h : hasDoubleWS l = false) :
    hasDoubleWS (pyStrip l) = false := by
  have hdrop : hasDoubleWS (l.dropWhile pyIsSpace) = false := by
    have := List.takeWhile_append_dropWhile pyIsSpace l
    rw [← this] at h
    exact hasDoubleWS_append_right _ h
  obtain ⟨u, hu⟩ := rstripL_isPref (l.dropWhile pyIsSpace)
  rw [hu] at hdrop
  exact hasDoubleWS_append_left _ hdrop

theorem pipeCollapse_eq_self : ∀ {l : List Char},
    (∀ c ∈ l, isPipeChar c = false) → pipeCollapse l = l := by
  intro l
  induction l with
  | nil => intro _; rfl
  | cons a cs ih =>
    intro h
    have ha : isPipeChar a = false := h a (by simp)
    cases cs with
    | nil =>
      rw [pipeCollapse_one, if_neg (by simp [ha])]
    | cons b rest =>
      rw [pipeCollapse_cons₂, if_neg (by simp [ha])]
      rw [ih (fun c hc => h c (List.mem_cons_of_mem _ hc))]

theorem sanitizeCore_no_pipe (cs : List Char) :
    ∀ c ∈ sanitizeCore cs, isPipeChar c = false := by
  intro c h
  rw [sanitizeCore_eq] at h
  by_cases h0 : (clean_strL cs).isEmpty
  · rw [if_pos h0] at h
    simp at h
  · rw [if_neg h0] at h
    exact pipeCollapse_no_pipe _ c (mem_pyStrip h)

theorem sanitizeCore_noDoubleWS (cs : List Char) (h : ∀ c ∈ cs, isPipeChar c = false) :
    hasDoubleWS (sanitizeCore cs) = false := by
  rw [sanitizeCore_eq]
  by_cases h0 : (clean_strL cs).isEmpty
  · rw [if_pos h0]
    rfl
  · rw [if_neg h0]
    have hpf : ∀ c ∈ pyStrip (wsCollapse
        (CTA_WORDS.foldl (fun t w => subB (ctaMatchLen w) t)
          (subB phoneMatchLen (subB urlMatchLen (clean_strL cs))))), isPipeChar c = false := by
      intro c hc
      rcases mem_wsCollapse (mem_pyStrip hc) with hc2 | hc2
      · have hc3 := mem_pyStrip (mem_subB _ _ (mem_subB _ _ (mem_ctaFoldSub _ _ hc2)))
        exact h c hc3
      · rw [hc2]; decide
    rw [pipeCollapse_eq_self hpf]
    exact hasDoubleWS_pyStrip (hasDoubleWS_pyStrip (wsCollapse_noDouble _))

/-- Claim C5 (counterexample): pipe/bullet separators are replaced after
the whitespace collapse, so `"a | b"` sanitizes to `"a   b"`, which has
a run of three consecutive spaces. -/
theorem sanitize_doublews_counterexample :
    strip_contact_and_cta ("a | b") = ("a   b") ∧
    hasDoubleWS (strip_contact_and_cta ("a | b")).data = true := by
  refine ⟨?_, ?_⟩ <;> decide

/-- Claim C5 (amended): the sanitizer's output never contains a pipe or
bullet separator character; and when the input contains no pipe or
bullet characters, the output contains no run of two or more
consecutive whitespace characters.  (When the input does contain such
separators, their replacement with spaces happens after the whitespace
collapse and can leave multi-space runs, see the counterexample.) -/
theorem sanitize_separators (s : String) :
    (∀ c ∈ (strip_contact_and_cta s).data, isPipeChar c = false) ∧
    ((∀ c ∈ s.data, isPipeChar c = false) →
      hasDoubleWS (strip_contact_and_cta s).data = false) := by
  have hdata : (strip_contact_and_cta s).data = sanitizeCore s.data := rfl
  rw [hdata]
  exact ⟨sanitizeCore_no_pipe s.data, sanitizeCore_noDoubleWS s.data⟩

/-- Witness for the amended C5 at a pipe-free input with repeated
whitespace. -/
theorem sanitize_separators_witness :
    (∀ c ∈ (strip_contact_and_cta ("a  b")).data, isPipeChar c = false) ∧
    hasDoubleWS (strip_contact_and_cta ("a  b")).data = false :=
  ⟨(sanitize_separators ("a  b")).1, (sanitize_separators ("a  b")).2 (by decide)⟩

/-- Claim C8 (confirmed): on `"Get 20% off your next service, call now!"`
the sanitizer removes the CTA word and the percentage-off pattern wins,
yielding exactly `"20% off"`. -/
theorem compress_twenty_percent_example :
    compress_to_offer ("Get 20% off your next service, call now!") = ("20% off") := by
  decide

/-- Claim C9 (confirmed): `normalize_phone` keeps exactly the digits of
the cleaned input; with exactly 10 digits it prepends `+1`, with exactly
11 digits starting in `1` it prepends `+`, and otherwise it returns the
bare digit string (possibly empty); the three concrete examples hold. -/
theorem normalize_phone_ok :
    (∀ s : String,
      ((((clean_strL s.data).filter (fun c => c.isDigit)).length = 10 →
        (normalize_phone s).data =
          '+' :: '1' :: ((clean_strL s.data).filter (fun c => c.isDigit))) ∧
       (((clean_strL s.data).filter (fun c => c.isDigit)).length = 11 →
        ((clean_strL s.data).filter (fun c => c.isDigit)).head? = some '1' →
        (normalize_phone s).data = '+' :: ((clean_strL s.data).filter (fun c => c.isDigit))) ∧
       (((clean_strL s.data).filter (fun c => c.isDigit)).length ≠ 10 →
        ¬(((clean_strL s.data).filter (fun c => c.isDigit)).length = 11 ∧
          ((clean_strL s.data).filter (fun c => c.isDigit)).head? = some '1') →
        (normalize_phone s).data = (clean_strL s.data).filter (fun c => c.isDigit)))) ∧
    normalize_phone ("555-123-4567") = ("+15551234567") ∧
    normalize_phone ("15551234567") = ("+15551234567") ∧
    normalize_phone ("123") = ("123") := by
  refine ⟨fun s => ⟨?_, ?_, ?_⟩, by decide, by decide, by decide⟩
  · intro h10
    show normalize_phoneCore s.data = _
    simp [normalize_phoneCore, h10]
  · intro h11 hhead
    show normalize_phoneCore s.data = _
    simp [normalize_phoneCore, h11, hhead]
  · intro h10 hno
    show normalize_phoneCore s.data = _
    by_cases h11 : ((clean_strL s.data).filter (fun c => c.isDigit)).length = 11
    · have hh : ((clean_strL s.data).filter (fun c => c.isDigit)).head? ≠ some '1' :=
        fun hh => hno ⟨h11, hh⟩
      simp at hh
      simp [normalize_phoneCore, h10, h11, hh]
    · simp [normalize_phoneCore, h10, h11]

/-- Witness for C9's general clauses at a concrete input. -/
theorem normalize_phone_ok_witness :
    (normalize_phone ("(555) 123-4567")).data =
      '+' :: '1' :: ((clean_strL ("(555) 123-4567").data).filter (fun c => c.isDigit)) :=
  ((normalize_phone_ok.1 ("(555) 123-4567")).1) (by decide)

/-- Claim C7 (confirmed): a website string that normalizes to the empty
string makes `scrape_site_bundle` return the missing-status record with
zero fetch attempts issued. -/
theorem scrape_missing_no_fetch (page : String → PageResult) (preds : SitePreds)
    (website : String) (h : normalize_url website = ("")) :
    scrape_site_bundle page preds website = ([(("status"), Val.s ("missing"))], 0) := by
  rw [scrape_site_bundle]
  simp [h]

/-- Witness for C7 at the whitespace-only website string. -/
theorem scrape_missing_no_fetch_witness :
    scrape_site_bundle (fun _ => PageResult.exn)
      ⟨fun _ => true, fun _ => true, fun _ => true, fun _ => true, fun _ => true,
       fun _ => true, fun _ => true⟩ ("   ") = ([(("status"), Val.s ("missing"))], 0) :=
  scrape_missing_no_fetch _ _ _ (by decide)

theorem crawlStep_attempts (page : String → PageResult) (website : String) (st : CrawlSt)
    (path : String) : (crawlStep page website st path).attempts ≤ st.attempts + 1 := by
  simp only [crawlStep]
  by_cases h4 : MAX_SITE_PAGES ≤ st.pagesChecked.length
  · rw [if_pos h4]
    omega
  · rw [if_neg h4]
    cases page (site_url website path) with
    | exn => simp
    | resp r =>
      dsimp only
      by_cases hs : 400 ≤ r.status
      · rw [if_pos hs]
      · rw [if_neg hs]
        by_cases hv : r.visText.length < 200
        · rw [if_pos hv]
        · rw [if_neg hv]

theorem crawlStep_pages (page : String → PageResult) (website : String) (st : CrawlSt)
    (path : String) (h : st.pagesChecked.length ≤ MAX_SITE_PAGES) :
    (crawlStep page website st path).pagesChecked.length ≤ MAX_SITE_PAGES := by
  simp only [crawlStep]
  by_cases h4 : MAX_SITE_PAGES ≤ st.pagesChecked.length
  · rw [if_pos h4]
    exact h
  · rw [if_neg h4]
    have hlt := Nat.lt_of_not_le h4
    cases page (site_url website path) with
    | exn => simpa using h
    | resp r =>
      dsimp only
      by_cases hs : 400 ≤ r.status
      · rw [if_pos hs]; simpa using h
      · rw [if_neg hs]
        by_cases hv : r.visText.length < 200
        · rw [if_pos hv]; simpa using h
        · rw [if_neg hv]
          simp [List.length_append]
          omega

theorem crawl_fold_attempts (page : String → PageResult) (website : String) :
    ∀ (paths : List String) (st : CrawlSt),
      (paths.foldl (crawlStep page website) st).attempts ≤ st.attempts + paths.length := by
  intro paths
  induction paths with
  | nil => intro st; simp
  | cons p ps ih =>
    intro st
    rw [List.foldl_cons]
    calc (ps.foldl (crawlStep page website) (crawlStep page website st p)).attempts
        ≤ (crawlStep page website st p).attempts + ps.length := ih _
      _ ≤ st.attempts + 1 + ps.length := by
          have := crawlStep_attempts page website st p
          omega
      _ = st.attempts + (p :: ps).length := by
          simp [List.length_cons]
          omega

theorem crawl_fold_pages (page : String → PageResult) (website : String) :
    ∀ (paths : List String) (st : CrawlSt), st.pagesChecked.length ≤ MAX_SITE_PAGES →
      (paths.foldl (crawlStep page website) st).pagesChecked.length ≤ MAX_SITE_PAGES := by
  intro paths
  induction paths with
  | nil => intro st h; simpa using h
  | cons p ps ih =>
    intro st h
    rw [List.foldl_cons]
    exact ih _ (crawlStep_pages page website st p h)

/-- Claim C6 (confirmed): one crawl issues at most
`CANDIDATE_PATHS.length` (= 12) fetch attempts, whatever the HTTP layer
answers, and the collected `pagesChecked` list never exceeds
`MAX_SITE_PAGES` (= 4) entries (the loop stops fetching once four pages
were successfully collected). -/
theorem crawl_budget (page : String → PageResult) (preds : SitePreds) (website : String) :
    CANDIDATE_PATHS.length = 12 ∧
    (scrape_site_bundle page preds website).2 ≤ CANDIDATE_PATHS.length ∧
    (∀ v, ((scrape_site_bundle page preds website).1.lookup ("pagesChecked")) = some v →
      ∃ l, v = Val.list l ∧ l.length ≤ MAX_SITE_PAGES) := by
  refine ⟨rfl, ?_, ?_⟩
  · rw [scrape_site_bundle]
    by_cases h0 : normalize_url website = ("")
    · simp [h0]
    · simp only [h0, if_false]
      have hatt := crawl_fold_attempts page (normalize_url website) CANDIDATE_PATHS
        ⟨[], (""), (""), (""), [], 0⟩
      split
      · simpa using hatt
      · simpa using hatt
  · intro v hv
    rw [scrape_site_bundle] at hv
    by_cases h0 : normalize_url website = ("")
    · simp [h0, List.lookup] at hv
    · simp only [h0, if_false] at hv
      have hpages := crawl_fold_pages page (normalize_url website) CANDIDATE_PATHS
        ⟨[], (""), (""), (""), [], 0⟩ (by simp [MAX_SITE_PAGES])
      split at hv
      · simp [List.lookup] at hv
      · simp only [List.lookup] at hv
        rw [show ((("pagesChecked") : String) == ("status")) = false from by decide] at hv
        rw [show ((("pagesChecked") : String) == ("pagesChecked")) = true from by decide] at hv
        simp at hv
        exact ⟨_, hv.symm, hpages⟩

/-- Witness for C6 at a concrete oracle: every fetch raises, twelve
attempts are made, and the bundle is the unreachable record. -/
theorem crawl_budget_witness :
    (scrape_site_bundle (fun _ => PageResult.exn)
      ⟨fun _ => true, fun _ => true, fun _ => true, fun _ => true, fun _ => true,
       fun _ => true, fun _ => true⟩ ("example.com")).2 ≤ CANDIDATE_PATHS.length :=
  (crawl_budget _ _ _).2.1

/-- Claim C10 (confirmed): when the bundle's status is `"missing"` or
`"unreachable"`, the returned record is exactly the one-entry dictionary
containing only the status field (src/main.py lines 167 and 203). -/
theorem scrape_status_only (page : String → PageResult) (preds : SitePreds) (website : String) :
    ∀ stv : String,
      ((scrape_site_bundle page preds website).1.lookup ("status")) = some (Val.s stv) →
      (stv = ("missing") ∨ stv = ("unreachable")) →
      (scrape_site_bundle page preds website).1 = [(("status"), Val.s stv)] := by
  intro stv hlook hmu
  rw [scrape_site_bundle] at hlook ⊢
  by_cases h0 : normalize_url website = ("")
  · simp [h0, List.lookup] at hlook ⊢
    rw [← hlook]
  · simp only [h0, if_false] at hlook ⊢
    split at hlook
    · rename_i hcond
      rw [if_pos hcond]
      simp [List.lookup] at hlook
      rw [← hlook]
    · rename_i hcond
      exfalso
      simp only [List.lookup] at hlook
      rw [show ((("status") : String) == ("status")) = true from by decide] at hlook
      simp at hlook
      rw [← hlook] at hmu
      rcases hmu with hmu | hmu <;> exact absurd hmu (by decide)

/-- Witness for C10 at a concrete all-failing oracle (unreachable). -/
theorem scrape_status_only_witness :
    (scrape_site_bundle (fun _ => PageResult.exn)
      ⟨fun _ => true, fun _ => true, fun _ => true, fun _ => true, fun _ => true,
       fun _ => true, fun _ => true⟩ ("example.com")).1 =
      [(("status"), Val.s ("unreachable"))] :=
  scrape_status_only _ _ _ ("unreachable") (by decide) (Or.inr rfl)
